import Mathlib

/-!
Verification of the mutation-context protocol of the persistent data
structures in this repository, together with the red-black tree
constructors.

The source manipulates heap references: a mutation context holds a
reference to a shared one-element boolean array (the token), persistent
values hold references to mutation contexts, and operations mutate these
cells in place.  The embedding makes the heap explicit: tokens, contexts
and persistent values live in indexed stores, references are indices, and
every operation of the source becomes a function from a heap (and
argument references) to a heap (and a result reference).  Reference
equality of the source (===) is equality of indices; allocation appends
to the corresponding store, so distinct allocations receive distinct
references, exactly as in the source.
-/

namespace Structural

/-- A mutation context.  The field `token` is a reference (index) into the
shared store of boolean token cells; `scope` distinguishes a primary
context (scope greater or equal to 0, counting reentrant begin/commit
nesting) from a subordinate one (scope equal to -1). -/
structure Ctx where
  token : Nat
  scope : Int
deriving DecidableEq

/-- A persistent value: a reference to its mutation context, its own data
content, and references to named child slots (indexed by position).  The
clone hook of the source copies `data` and the child references shallowly
and installs a caller-supplied context, which is exactly what `cloneVal`
below does. -/
structure Val where
  mctx : Nat
  data : Nat
  fields : List Nat
deriving DecidableEq

/-- The explicit heap: the store of shared token cells, of mutation
context objects, and of persistent values. -/
structure Heap where
  tokens : List Bool
  ctxs : List Ctx
  vals : List Val
deriving DecidableEq

/-- Dereference a token cell. -/
def Heap.tokenAt (h : Heap) (t : Nat) : Bool :=
  h.tokens.getD t false

/-- Dereference a mutation context. -/
def Heap.ctxAt (h : Heap) (c : Nat) : Ctx :=
  h.ctxs.getD c ⟨0, -1⟩

/-- Dereference a persistent value. -/
def Heap.valAt (h : Heap) (v : Nat) : Val :=
  h.vals.getD v ⟨0, 0, []⟩

/-- Allocate a fresh token cell, returning its reference. -/
def Heap.allocToken (h : Heap) (b : Bool) : Heap × Nat :=
  ({ h with tokens := h.tokens ++ [b] }, h.tokens.length)

/-- Allocate a fresh mutation context, returning its reference. -/
def Heap.allocCtx (h : Heap) (c : Ctx) : Heap × Nat :=
  ({ h with ctxs := h.ctxs ++ [c] }, h.ctxs.length)

/-- Allocate a fresh persistent value, returning its reference. -/
def Heap.allocVal (h : Heap) (x : Val) : Heap × Nat :=
  ({ h with vals := h.vals ++ [x] }, h.vals.length)

/-- Write a token cell in place. -/
def Heap.setToken (h : Heap) (t : Nat) (b : Bool) : Heap :=
  { h with tokens := h.tokens.set t b }

/-- Overwrite a mutation context object in place. -/
def Heap.setCtx (h : Heap) (c : Nat) (x : Ctx) : Heap :=
  { h with ctxs := h.ctxs.set c x }

/-- Overwrite a persistent value in place. -/
def Heap.setVal (h : Heap) (v : Nat) (x : Val) : Heap :=
  { h with vals := h.vals.set v x }

/-- Source `getMutationContext(value)`: the context reference held by a
value. -/
def getMutationContext (h : Heap) (v : Nat) : Nat :=
  (h.valAt v).mctx

/-- Source `isMutableContext(mctx)`: read the shared token of the
context. -/
def isMutableContext (h : Heap) (c : Nat) : Bool :=
  h.tokenAt (h.ctxAt c).token

/-- Source `isImmutableContext(mctx)`. -/
def isImmutableContext (h : Heap) (c : Nat) : Bool :=
  !isMutableContext h c

/-- Source `isPrimaryContext(mctx)`: scope greater or equal to 0. -/
def isPrimaryContext (h : Heap) (c : Nat) : Bool :=
  decide (0 ≤ (h.ctxAt c).scope)

/-- Source `isSubordinateContext(mctx)`: scope equal to -1. -/
def isSubordinateContext (h : Heap) (c : Nat) : Bool :=
  decide ((h.ctxAt c).scope = -1)

/-- Source `isRelatedContext(a, b)`: reference equality of the two token
cells. -/
def isRelatedContext (h : Heap) (a b : Nat) : Bool :=
  (h.ctxAt a).token == (h.ctxAt b).token

/-- Source `token(value)`: the token reference of the context of a
value. -/
def tokenOf (h : Heap) (v : Nat) : Nat :=
  (h.ctxAt (getMutationContext h v)).token

/-- Source `isMutable(value)`. -/
def isMutable (h : Heap) (v : Nat) : Bool :=
  isMutableContext h (getMutationContext h v)

/-- Source `isImmutable(value)`. -/
def isImmutable (h : Heap) (v : Nat) : Bool :=
  !isMutable h v

/-- Source `areContextsRelated(a, b)`: reference equality of the token
cells of two values. -/
def areContextsRelated (h : Heap) (a b : Nat) : Bool :=
  tokenOf h a == tokenOf h b

/-- Source `mutable()`: a brand-new primary context with a fresh active
token and scope 0. -/
def mutable (h : Heap) : Heap × Nat :=
  let p := h.allocToken true
  p.1.allocCtx ⟨p.2, 0⟩

/-- Source `close(mctx)`: flip the shared token of the context to
frozen. -/
def close (h : Heap) (c : Nat) : Heap :=
  h.setToken (h.ctxAt c).token false

/-- Source `incScope(mctx)`: increment the scope of the context in
place. -/
def incScope (h : Heap) (c : Nat) : Heap :=
  h.setCtx c ⟨(h.ctxAt c).token, (h.ctxAt c).scope + 1⟩

/-- Source `decScope(mctx)`: decrement the scope of the context in
place. -/
def decScope (h : Heap) (c : Nat) : Heap :=
  h.setCtx c ⟨(h.ctxAt c).token, (h.ctxAt c).scope - 1⟩

/-- Source `asSubordinateContext(mctx)`: a subordinate context sharing the
same token; a fresh allocation when the input is primary, the input
itself (shared by reference) when it is already subordinate. -/
def asSubordinateContext (h : Heap) (c : Nat) : Heap × Nat :=
  if 0 ≤ (h.ctxAt c).scope then h.allocCtx ⟨(h.ctxAt c).token, -1⟩ else (h, c)

/-- Source `getSubordinateContext(value)`. -/
def getSubordinateContext (h : Heap) (v : Nat) : Heap × Nat :=
  asSubordinateContext h (getMutationContext h v)

/-- The reference of the canonical Frozen context: by convention token
cell 0 holds false permanently and context 0 is the Frozen context. -/
def frozenId : Nat := 0

/-- Source `PreferredContext`: undefined, a boolean, a mutation context,
or a persistent value. -/
inductive PreferredContext where
  | undef : PreferredContext
  | bool (b : Bool) : PreferredContext
  | mctx (c : Nat) : PreferredContext
  | pval (v : Nat) : PreferredContext
deriving DecidableEq

/-- Source `selectContext(pctx)`: normalize a preferred-context argument
to a concrete context reference. -/
def selectContext (h : Heap) (p : PreferredContext) : Heap × Nat :=
  match p with
  | .undef => (h, frozenId)
  | .bool b => if b then mutable h else (h, frozenId)
  | .mctx c => if isMutableContext h c then (h, c) else (h, frozenId)
  | .pval v => getSubordinateContext h v

/-- Source `clone(value, pctx)`: run the clone hook of the value with the
context selected from the preference: a shallow copy of data and child
references carrying the selected context. -/
def clone (h : Heap) (v : Nat) (p : PreferredContext) : Heap × Nat :=
  let s := selectContext h p
  s.1.allocVal ⟨s.2, (s.1.valAt v).data, (s.1.valAt v).fields⟩

/-- Source `begin(value)`. -/
def begin (h : Heap) (v : Nat) : Heap × Nat :=
  let mc := getMutationContext h v
  if isMutableContext h mc then
    if isSubordinateContext h mc then (h, v)
    else (incScope h mc, v)
  else
    let p := mutable h
    clone p.1 v (.mctx p.2)

/-- Source `commit(value)`. -/
def commit (h : Heap) (v : Nat) : Heap × Nat :=
  let mc := getMutationContext h v
  if isPrimaryContext h mc then
    if (h.ctxAt mc).scope = 0 then (close h mc, v) else (decScope h mc, v)
  else (h, v)

/-- Errors thrown by the subsystem. -/
inductive PErr where
  | argumentError (name : String) (message : String) : PErr
  | invalidOperation (message : String) : PErr
deriving DecidableEq

instance {ε α : Type} [DecidableEq ε] [DecidableEq α] :
    DecidableEq (Except ε α) := fun a b =>
  match a, b with
  | .ok x, .ok y =>
    decidable_of_iff (x = y) ⟨fun e => congrArg Except.ok e, Except.ok.inj⟩
  | .error x, .error y =>
    decidable_of_iff (x = y)
      ⟨fun e => congrArg Except.error e, Except.error.inj⟩
  | .ok _, .error _ => isFalse fun hc => Except.noConfusion hc
  | .error _, .ok _ => isFalse fun hc => Except.noConfusion hc

/-- The first argument of modifyAsSubordinate and modifyAsEqual in the
source: a persistent value or a mutation context. -/
inductive CtxOrVal where
  | mctx (c : Nat) : CtxOrVal
  | pval (v : Nat) : CtxOrVal
deriving DecidableEq

/-- The source computes the parent context as
`isMutationContext(context) ? context : getMutationContext(context)`. -/
def resolveCtx (h : Heap) (x : CtxOrVal) : Nat :=
  match x with
  | .mctx c => c
  | .pval v => getMutationContext h v

/-- Source `modifyAsSubordinate(context, value)`. -/
def modifyAsSubordinate (h : Heap) (context : CtxOrVal) (v : Nat) :
    Except PErr (Heap × Nat) :=
  let mctxChild := getMutationContext h v
  let mctxParent := resolveCtx h context
  if isMutableContext h mctxParent then
    if isRelatedContext h mctxChild mctxParent &&
        isSubordinateContext h mctxChild then
      .ok (h, v)
    else
      let s := asSubordinateContext h mctxParent
      .ok (clone s.1 v (.mctx s.2))
  else
    .error (.argumentError "context"
      "The first argument must refer to a mutable object or mutation context")

/-- Source `modifyAsEqual(context, value)`. -/
def modifyAsEqual (h : Heap) (context : CtxOrVal) (v : Nat) :
    Except PErr (Heap × Nat) :=
  let mcChild := getMutationContext h v
  let mcParent := resolveCtx h context
  if isMutableContext h mcParent then
    if isRelatedContext h mcChild mcParent &&
        (isSubordinateContext h mcParent || isPrimaryContext h mcChild) then
      .ok (h, v)
    else
      .ok (clone h v (.mctx mcParent))
  else
    .error (.argumentError "context"
      "The first argument must refer to a mutable object or mutation context")

/-- Source `modifyProperty(parent, name)`: the named child slot is the
entry of the field list of the parent at position `name`. -/
def modifyProperty (h : Heap) (parent : Nat) (name : Nat) :
    Except PErr (Heap × Nat) :=
  if isImmutable h parent then
    .error (.invalidOperation "Cannot modify properties of an immutable object")
  else
    let child := (h.valAt parent).fields.getD name 0
    if isRelatedContext h (getMutationContext h child)
        (getMutationContext h parent) then
      .ok (h, child)
    else
      let p := clone h child (.pval parent)
      let h2 := p.1.setVal parent
        ⟨(p.1.valAt parent).mctx, (p.1.valAt parent).data,
          (p.1.valAt parent).fields.set name p.2⟩
      .ok (h2, p.2)

/-- Source `update(mutate, value)`: begin, run the in-place mutation
procedure, commit.  The mutation procedure acts on the heap at the value
passed to it, exactly as the callback of the source does. -/
def update (mutate : Heap → Nat → Heap) (h : Heap) (v : Nat) : Heap × Nat :=
  let p := begin h v
  let h2 := mutate p.1 p.2
  commit h2 p.2

/-- Well-formedness of a heap: every context reference held by a value is
in range, every token reference held by a context is in range, scopes are
at least -1 (primary or subordinate), and every child slot reference is in
range. -/
def Heap.WF (h : Heap) : Prop :=
  (∀ c ∈ h.ctxs, c.token < h.tokens.length ∧ -1 ≤ c.scope) ∧
  (∀ x ∈ h.vals, x.mctx < h.ctxs.length ∧ ∀ f ∈ x.fields, f < h.vals.length)

instance (h : Heap) : Decidable h.WF := by
  unfold Heap.WF
  exact inferInstance

end Structural

namespace RBT

/-!
The red-black tree of src/packages/system/src/Persistent/RedBlackTree.
The Node class is self-referential through the sentinel (the constructor
defaults absent children to the node itself), so nodes live in an
explicit store and child links are references (indices), with reference
equality of the source again equality of indices.  Keys and values are
embedded as `Option Nat` so that the `undefined` key and value of the
sentinel are representable.
-/

/-- A node of the red-black tree, with child references into the node
store. -/
structure RBNode where
  editable : Bool
  key : Option Nat
  value : Option Nat
  red : Bool
  count : Nat
  left : Nat
  right : Nat
deriving DecidableEq

/-- The store of allocated nodes. -/
structure RBHeap where
  nodes : List RBNode
deriving DecidableEq

/-- Dereference a node. -/
def RBHeap.nodeAt (h : RBHeap) (n : Nat) : RBNode :=
  h.nodes.getD n ⟨false, none, none, false, 0, 0, 0⟩

/-- The Node constructor of the source: allocates a node; an absent
(`undefined`) child argument defaults to the node itself. -/
def newNode (h : RBHeap) (editable : Bool) (key value : Option Nat)
    (red : Bool) (count : Nat) (left right : Option Nat) : RBHeap × Nat :=
  let n := h.nodes.length
  (⟨h.nodes ++ [⟨editable, key, value, red, count, left.getD n, right.getD n⟩]⟩, n)

/-- The empty node store. -/
def emptyRBHeap : RBHeap := ⟨[]⟩

/-- The process-wide sentinel allocation, source
`None = new Node(true, undefined, undefined, false, 0)`: both child
arguments absent. -/
def noneAlloc : RBHeap × Nat :=
  newNode emptyRBHeap true none none false 0 none none

/-- The node store after the module initialisation of the source: it
holds exactly the sentinel. -/
def rbHeap0 : RBHeap := noneAlloc.1

/-- The reference of the process-wide sentinel None. -/
def noneId : Nat := noneAlloc.2

/-- A red-black tree, source class RedBlackTree: an editability flag, the
ordering comparator, the root reference and the size. -/
structure RedBlackTree where
  editable : Bool
  ord : Nat → Nat → Ordering
  root : Nat
  size : Nat

/-- Source `make(o)`: a new tree over comparator `o`, not editable, with
root None and size 0. -/
def make (o : Nat → Nat → Ordering) : RedBlackTree :=
  ⟨false, o, noneId, 0⟩

/-- Source `makeNode(tree, red, key, value)`: a new node with the
editability of the tree, count 1 and both children None. -/
def makeNode (h : RBHeap) (tree : RedBlackTree) (red : Bool)
    (key value : Option Nat) : RBHeap × Nat :=
  newNode h tree.editable key value red 1 (some noneId) (some noneId)

end RBT

namespace Structural

/-! Helper lemmas about indexing into the stores. -/

theorem getD_append_lt {α : Type} (l m : List α) (i : Nat) (d : α)
    (h : i < l.length) : (l ++ m).getD i d = l.getD i d := by
  simp [List.getD_eq_getElem?_getD, List.getElem?_append_left h]

theorem getD_append_len {α : Type} (l : List α) (a d : α) :
    (l ++ [a]).getD l.length d = a := by
  simp [List.getD_eq_getElem?_getD, List.getElem?_append_right (Nat.le_refl _)]

theorem getD_set_self {α : Type} (l : List α) (i : Nat) (a d : α)
    (h : i < l.length) : (l.set i a).getD i d = a := by
  simp [List.getD_eq_getElem?_getD, List.getElem?_set_self, h]

theorem getD_set_ne {α : Type} (l : List α) (i j : Nat) (a d : α)
    (h : i ≠ j) : (l.set i a).getD j d = l.getD j d := by
  simp [List.getD_eq_getElem?_getD, List.getElem?_set_ne h]

theorem getD_mem {α : Type} (l : List α) (i : Nat) (d : α)
    (h : i < l.length) : l.getD i d ∈ l := by
  rw [List.getD_eq_getElem l d h]
  exact List.getElem_mem h

/-- In a well-formed heap, every context dereference yields a scope of at
least -1 (the out-of-range default is the frozen subordinate shape). -/
theorem scope_ge_neg_one {h : Heap} (hwf : h.WF) (c : Nat) :
    -1 ≤ (h.ctxAt c).scope := by
  by_cases hc : c < h.ctxs.length
  · exact (hwf.1 _ (getD_mem _ _ _ hc)).2
  · simp [Heap.ctxAt, List.getD_eq_getElem?_getD,
      List.getElem?_eq_none (Nat.le_of_not_lt hc)]

/-- In a well-formed heap a context is subordinate exactly when it is not
primary. -/
theorem subordinate_eq_not_primary {h : Heap} (hwf : h.WF) (c : Nat) :
    isSubordinateContext h c = !isPrimaryContext h c := by
  have := scope_ge_neg_one hwf c
  simp only [isSubordinateContext, isPrimaryContext]
  by_cases h0 : 0 ≤ (h.ctxAt c).scope
  · simp [h0]; omega
  · simp [h0]; omega

/-! Per-branch evaluation lemmas for begin and commit. -/

theorem begin_mutable_sub (h : Heap) (v : Nat)
    (hm : isMutableContext h (getMutationContext h v) = true)
    (hs : isSubordinateContext h (getMutationContext h v) = true) :
    begin h v = (h, v) := by
  simp [begin, hm, hs]

theorem begin_mutable_pri (h : Heap) (v : Nat)
    (hm : isMutableContext h (getMutationContext h v) = true)
    (hs : isSubordinateContext h (getMutationContext h v) = false) :
    begin h v = (incScope h (getMutationContext h v), v) := by
  simp [begin, hm, hs]

theorem begin_immutable (h : Heap) (v : Nat)
    (hm : isMutableContext h (getMutationContext h v) = false) :
    begin h v =
      (⟨h.tokens ++ [true],
        h.ctxs ++ [⟨h.tokens.length, 0⟩],
        h.vals ++ [⟨h.ctxs.length, (h.valAt v).data, (h.valAt v).fields⟩]⟩,
       h.vals.length) := by
  have hsel : isMutableContext
      ⟨h.tokens ++ [true], h.ctxs ++ [⟨h.tokens.length, 0⟩], h.vals⟩
      h.ctxs.length = true := by
    simp [isMutableContext, Heap.ctxAt, Heap.tokenAt, getD_append_len]
  simp [begin, hm, clone, mutable, Heap.allocToken, Heap.allocCtx,
    Heap.allocVal, selectContext, hsel, Heap.valAt]

theorem commit_not_primary (h : Heap) (v : Nat)
    (hp : isPrimaryContext h (getMutationContext h v) = false) :
    commit h v = (h, v) := by
  simp [commit, hp]

theorem commit_scope_zero (h : Heap) (v : Nat)
    (hp : isPrimaryContext h (getMutationContext h v) = true)
    (h0 : (h.ctxAt (getMutationContext h v)).scope = 0) :
    commit h v =
      (h.setToken (h.ctxAt (getMutationContext h v)).token false, v) := by
  simp [commit, hp, h0, close]

theorem commit_scope_ne_zero (h : Heap) (v : Nat)
    (hp : isPrimaryContext h (getMutationContext h v) = true)
    (h0 : (h.ctxAt (getMutationContext h v)).scope ≠ 0) :
    commit h v =
      (h.setCtx (getMutationContext h v)
        ⟨(h.ctxAt (getMutationContext h v)).token,
         (h.ctxAt (getMutationContext h v)).scope - 1⟩, v) := by
  simp [commit, hp, h0, decScope]

/-! WF extraction and accessor lemmas. -/

theorem mctx_lt {h : Heap} (hwf : h.WF) {v : Nat} (hv : v < h.vals.length) :
    getMutationContext h v < h.ctxs.length :=
  (hwf.2 _ (getD_mem _ _ _ hv)).1

theorem ctx_token_lt {h : Heap} (hwf : h.WF) {c : Nat}
    (hc : c < h.ctxs.length) : (h.ctxAt c).token < h.tokens.length :=
  (hwf.1 _ (getD_mem _ _ _ hc)).1

theorem fields_lt {h : Heap} (hwf : h.WF) {v : Nat} (hv : v < h.vals.length)
    {i : Nat} (hi : i < (h.valAt v).fields.length) :
    (h.valAt v).fields.getD i 0 < h.vals.length :=
  (hwf.2 _ (getD_mem _ _ _ hv)).2 _ (getD_mem _ _ _ hi)

theorem isImmutable_eq (h : Heap) (w : Nat) :
    isImmutable h w = !h.tokenAt (tokenOf h w) := rfl

theorem tokenOf_setToken (h : Heap) (t : Nat) (b : Bool) (w : Nat) :
    tokenOf (h.setToken t b) w = tokenOf h w := rfl

theorem tokenAt_setToken_self (h : Heap) {t : Nat} (ht : t < h.tokens.length)
    (b : Bool) : (h.setToken t b).tokenAt t = b :=
  getD_set_self _ _ _ _ ht

theorem ctxAt_setCtx_self (h : Heap) {c : Nat} (hc : c < h.ctxs.length)
    (x : Ctx) : (h.setCtx c x).ctxAt c = x :=
  getD_set_self _ _ _ _ hc

theorem ctxAt_setCtx_ne (h : Heap) {c d : Nat} (hne : c ≠ d) (x : Ctx) :
    (h.setCtx c x).ctxAt d = h.ctxAt d :=
  getD_set_ne _ _ _ _ _ hne

/-- The statement of claim C1 at a heap and a value reference: commit
returns the value itself and allocates no clone; when the context of the
value is primary with scope 0, the shared token is flipped so that every
value holding a context with the same token reports isImmutable, with no
value store mutation; when primary with a positive scope, only the scope
of that one context is decremented; when subordinate, nothing changes. -/
def CommitClaim (h : Heap) (v : Nat) : Prop :=
  (commit h v).2 = v ∧
  (commit h v).1.vals = h.vals ∧
  (isPrimaryContext h (getMutationContext h v) = true ∧
      (h.ctxAt (getMutationContext h v)).scope = 0 →
    ∀ w, tokenOf h w = tokenOf h v → isImmutable (commit h v).1 w = true) ∧
  (isPrimaryContext h (getMutationContext h v) = true ∧
      0 < (h.ctxAt (getMutationContext h v)).scope →
    (commit h v).1.tokens = h.tokens ∧
    ((commit h v).1.ctxAt (getMutationContext h v)).scope
      = (h.ctxAt (getMutationContext h v)).scope - 1 ∧
    ((commit h v).1.ctxAt (getMutationContext h v)).token
      = (h.ctxAt (getMutationContext h v)).token ∧
    (∀ c, c ≠ getMutationContext h v → (commit h v).1.ctxAt c = h.ctxAt c)) ∧
  (isSubordinateContext h (getMutationContext h v) = true →
    commit h v = (h, v))

/-- C1: commit returns the value itself and never clones; with a primary
context of scope 0 it flips the shared token, which makes every value
holding a context with the same token (in particular every subordinate
batch member, none of which is touched directly) report isImmutable; with
a primary context of positive scope it only decrements the scope; with a
subordinate context it changes nothing. -/
theorem commit_correct (h : Heap) (v : Nat) (hwf : h.WF)
    (hv : v < h.vals.length) : CommitClaim h v := by
  have hmc := mctx_lt hwf hv
  have htok := ctx_token_lt hwf hmc
  unfold CommitClaim
  by_cases hp : isPrimaryContext h (getMutationContext h v) = true
  · have hscope : 0 ≤ (h.ctxAt (getMutationContext h v)).scope :=
      of_decide_eq_true hp
    by_cases h0 : (h.ctxAt (getMutationContext h v)).scope = 0
    · rw [commit_scope_zero h v hp h0]
      refine ⟨rfl, rfl, ?_, ?_, ?_⟩
      · intro _ w hw
        rw [isImmutable_eq, tokenOf_setToken, hw,
          show tokenOf h v = (h.ctxAt (getMutationContext h v)).token from rfl,
          show (h.setToken (h.ctxAt (getMutationContext h v)).token false).tokenAt
              (h.ctxAt (getMutationContext h v)).token = false from
            tokenAt_setToken_self h htok false]
        rfl
      · rintro ⟨-, hpos⟩
        omega
      · intro hsub
        have := of_decide_eq_true hsub
        omega
    · rw [commit_scope_ne_zero h v hp h0]
      refine ⟨rfl, rfl, ?_, ?_, ?_⟩
      · rintro ⟨-, habs⟩
        omega
      · rintro ⟨-, -⟩
        refine ⟨rfl, ?_, ?_, ?_⟩
        · rw [ctxAt_setCtx_self h hmc]
        · rw [ctxAt_setCtx_self h hmc]
        · intro c hc
          exact ctxAt_setCtx_ne h (Ne.symm hc) _
      · intro hsub
        have := of_decide_eq_true hsub
        omega
  · rw [commit_not_primary h v (Bool.not_eq_true _ ▸ eq_false_of_ne_true hp)]
    exact ⟨rfl, rfl, fun hc => absurd hc.1 hp, fun hc => absurd hc.1 hp,
      fun _ => rfl⟩

/-- A concrete well-formed heap: one active batch whose token is cell 0,
a primary owner context, a subordinate participant context sharing the
token, and two values holding them. -/
def hBatch : Heap :=
  ⟨[true], [⟨0, 0⟩, ⟨0, -1⟩], [⟨0, 5, []⟩, ⟨1, 7, []⟩]⟩

theorem commit_correct_witness :
    hBatch.WF ∧ 0 < hBatch.vals.length ∧ CommitClaim hBatch 0 :=
  ⟨by decide, by decide, commit_correct hBatch 0 (by decide) (by decide)⟩

theorem getD_out_of_range {α : Type} (l : List α) (i : Nat) (d : α)
    (h : l.length ≤ i) : l.getD i d = d := by
  simp [List.getD_eq_getElem?_getD, List.getElem?_eq_none h]

/-- The statement of claim C2 at a heap and a value reference: begin on a
mutable subordinate value is the identity; begin on a mutable primary
value increments only the scope of its context and returns the same
reference; begin on an immutable value returns a fresh clone carrying a
brand-new primary mutable context (fresh token set to active, scope 0)
with the same content, and leaves the original untouched. -/
def BeginClaim (h : Heap) (v : Nat) : Prop :=
  (isMutable h v = true ∧
      isSubordinateContext h (getMutationContext h v) = true →
    begin h v = (h, v)) ∧
  (isMutable h v = true ∧
      isPrimaryContext h (getMutationContext h v) = true →
    (begin h v).2 = v ∧
    (begin h v).1.tokens = h.tokens ∧
    (begin h v).1.vals = h.vals ∧
    ((begin h v).1.ctxAt (getMutationContext h v)).scope
      = (h.ctxAt (getMutationContext h v)).scope + 1 ∧
    ((begin h v).1.ctxAt (getMutationContext h v)).token
      = (h.ctxAt (getMutationContext h v)).token ∧
    (∀ c, c ≠ getMutationContext h v → (begin h v).1.ctxAt c = h.ctxAt c)) ∧
  (isImmutable h v = true →
    (begin h v).2 = h.vals.length ∧
    (begin h v).2 ≠ v ∧
    ((begin h v).1.valAt (begin h v).2).data = (h.valAt v).data ∧
    ((begin h v).1.valAt (begin h v).2).fields = (h.valAt v).fields ∧
    getMutationContext (begin h v).1 (begin h v).2 = h.ctxs.length ∧
    (begin h v).1.ctxAt h.ctxs.length = ⟨h.tokens.length, 0⟩ ∧
    (begin h v).1.tokenAt h.tokens.length = true ∧
    (begin h v).1.valAt v = h.valAt v ∧
    isImmutable (begin h v).1 v = true)

/-- C2: begin returns a mutable subordinate value unchanged; on a mutable
primary value it increments the scope of that context and returns the
same reference; on an immutable value it returns a clone carrying a
brand-new primary mutable context (fresh token set to active, scope 0)
and never mutates the original. -/
theorem begin_correct (h : Heap) (v : Nat) (hwf : h.WF)
    (hv : v < h.vals.length) : BeginClaim h v := by
  have hmc := mctx_lt hwf hv
  have htok := ctx_token_lt hwf hmc
  unfold BeginClaim
  refine ⟨?_, ?_, ?_⟩
  · rintro ⟨hm, hs⟩
    exact begin_mutable_sub h v hm hs
  · rintro ⟨hm, hp⟩
    have hscope : 0 ≤ (h.ctxAt (getMutationContext h v)).scope :=
      of_decide_eq_true hp
    have hs : isSubordinateContext h (getMutationContext h v) = false := by
      simp only [isSubordinateContext, decide_eq_false_iff_not]
      omega
    rw [begin_mutable_pri h v hm hs]
    refine ⟨rfl, rfl, rfl, ?_, ?_, ?_⟩
    · simp only [incScope]
      rw [ctxAt_setCtx_self h hmc]
    · simp only [incScope]
      rw [ctxAt_setCtx_self h hmc]
    · intro c hc
      simp only [incScope]
      exact ctxAt_setCtx_ne h (Ne.symm hc) _
  · intro him
    have hmf : isMutableContext h (getMutationContext h v) = false := by
      simpa [isImmutable, isMutable] using him
    rw [begin_immutable h v hmf]
    refine ⟨rfl, by simp only []; omega, ?_, ?_, ?_, ?_, ?_, ?_, ?_⟩
    · simp [Heap.valAt, getD_append_len]
    · simp [Heap.valAt, getD_append_len]
    · simp [getMutationContext, Heap.valAt, getD_append_len]
    · simp [Heap.ctxAt, getD_append_len]
    · simp [Heap.tokenAt, getD_append_len]
    · exact getD_append_lt _ _ _ _ hv
    · simp only [isImmutable, isMutable, isMutableContext, getMutationContext,
        Heap.valAt, Heap.ctxAt, Heap.tokenAt]
      rw [getD_append_lt _ _ _ _ hv,
        getD_append_lt h.ctxs [⟨h.tokens.length, 0⟩]
          ((h.vals.getD v ⟨0, 0, []⟩).mctx) ⟨0, -1⟩ hmc,
        getD_append_lt h.tokens [true]
          ((h.ctxs.getD (h.vals.getD v ⟨0, 0, []⟩).mctx ⟨0, -1⟩).token)
          false htok]
      exact him

theorem begin_correct_witness :
    hBatch.WF ∧ 0 < hBatch.vals.length ∧ BeginClaim hBatch 0 :=
  ⟨by decide, by decide, begin_correct hBatch 0 (by decide) (by decide)⟩

/-- C9: begin is idempotent on references: applying begin to the result
of begin returns the very same reference, for every persistent value and
heap; the scope counter of a primary owner may move but the reference
identity is preserved. -/
theorem begin_idempotent (h : Heap) (v : Nat) :
    (begin (begin h v).1 (begin h v).2).2 = (begin h v).2 := by
  by_cases hm : isMutableContext h (getMutationContext h v) = true
  · by_cases hs : isSubordinateContext h (getMutationContext h v) = true
    · rw [begin_mutable_sub h v hm hs, begin_mutable_sub h v hm hs]
    · have hsub := eq_false_of_ne_true hs
      have hmc : getMutationContext h v < h.ctxs.length := by
        by_contra hge
        have : h.ctxAt (getMutationContext h v) = ⟨0, -1⟩ :=
          getD_out_of_range _ _ _ (Nat.le_of_not_lt hge)
        rw [isSubordinateContext, this] at hsub
        simp at hsub
      rw [begin_mutable_pri h v hm hsub]
      set h2 := incScope h (getMutationContext h v) with hh2
      have hmc2 : getMutationContext h2 v = getMutationContext h v := rfl
      have hctx2 : h2.ctxAt (getMutationContext h v)
          = ⟨(h.ctxAt (getMutationContext h v)).token,
             (h.ctxAt (getMutationContext h v)).scope + 1⟩ := by
        rw [hh2]
        simp only [incScope]
        exact ctxAt_setCtx_self h hmc _
      have hm2 : isMutableContext h2 (getMutationContext h2 v) = true := by
        rw [hmc2, isMutableContext, hctx2]
        exact hm
      by_cases hs2 : isSubordinateContext h2 (getMutationContext h2 v) = true
      · rw [begin_mutable_sub h2 v hm2 hs2]
      · rw [begin_mutable_pri h2 v hm2 (eq_false_of_ne_true hs2)]
  · have hmf := eq_false_of_ne_true hm
    rw [begin_immutable h v hmf]
    set h2 : Heap :=
      ⟨h.tokens ++ [true], h.ctxs ++ [⟨h.tokens.length, 0⟩],
       h.vals ++ [⟨h.ctxs.length, (h.valAt v).data, (h.valAt v).fields⟩]⟩
      with hh2
    have hmc2 : getMutationContext h2 h.vals.length = h.ctxs.length := by
      rw [hh2]
      simp [getMutationContext, Heap.valAt, getD_append_len]
    have hm2 : isMutableContext h2 (getMutationContext h2 h.vals.length)
        = true := by
      rw [hmc2, hh2]
      simp [isMutableContext, Heap.ctxAt, Heap.tokenAt, getD_append_len]
    by_cases hs2 : isSubordinateContext h2 (getMutationContext h2 h.vals.length)
      = true
    · rw [begin_mutable_sub h2 h.vals.length hm2 hs2]
    · rw [begin_mutable_pri h2 h.vals.length hm2 (eq_false_of_ne_true hs2)]

/-! Claim C4: the round trip through a no-op batch. -/

/-- The three-step sequence of claim C4 as written: begin, commit,
begin. -/
def roundTrip (h : Heap) (v : Nat) : Heap × Nat :=
  let p := begin h v
  let q := commit p.1 p.2
  begin q.1 q.2

/-- A concrete heap holding a single immutable value of content 7 whose
context is the canonical frozen context. -/
def hFrozenVal : Heap :=
  ⟨[false], [⟨0, -1⟩], [⟨0, 7, []⟩]⟩

/-- C4 counterexample: on a well-formed heap with a single immutable
value, the sequence begin-commit-begin preserves the content but yields a
value whose context is mutable, not frozen, because the trailing begin
clones into a brand-new active batch; the claim as stated is false at
this input. -/
theorem roundTrip_claim_false :
    hFrozenVal.WF ∧ isImmutable hFrozenVal 0 = true ∧
    ¬(((roundTrip hFrozenVal 0).1.valAt (roundTrip hFrozenVal 0).2).data
        = (hFrozenVal.valAt 0).data ∧
      isImmutable (roundTrip hFrozenVal 0).1 (roundTrip hFrozenVal 0).2
        = true) := by
  decide

theorem commit_ref (h : Heap) (v : Nat) : (commit h v).2 = v := by
  by_cases hp : isPrimaryContext h (getMutationContext h v) = true
  · by_cases h0 : (h.ctxAt (getMutationContext h v)).scope = 0
    · rw [commit_scope_zero h v hp h0]
    · rw [commit_scope_ne_zero h v hp h0]
  · rw [commit_not_primary h v (eq_false_of_ne_true hp)]

theorem commit_vals (h : Heap) (v : Nat) : (commit h v).1.vals = h.vals := by
  by_cases hp : isPrimaryContext h (getMutationContext h v) = true
  · by_cases h0 : (h.ctxAt (getMutationContext h v)).scope = 0
    · rw [commit_scope_zero h v hp h0]
      rfl
    · rw [commit_scope_ne_zero h v hp h0]
      rfl
  · rw [commit_not_primary h v (eq_false_of_ne_true hp)]

theorem valAt_ext {h1 h2 : Heap} (e : h1.vals = h2.vals) (v : Nat) :
    h1.valAt v = h2.valAt v := by
  simp [Heap.valAt, e]

theorem begin_content (h : Heap) (v : Nat) :
    ((begin h v).1.valAt (begin h v).2).data = (h.valAt v).data ∧
    ((begin h v).1.valAt (begin h v).2).fields = (h.valAt v).fields := by
  by_cases hm : isMutableContext h (getMutationContext h v) = true
  · by_cases hs : isSubordinateContext h (getMutationContext h v) = true
    · rw [begin_mutable_sub h v hm hs]
      exact ⟨rfl, rfl⟩
    · rw [begin_mutable_pri h v hm (eq_false_of_ne_true hs)]
      exact ⟨rfl, rfl⟩
  · rw [begin_immutable h v (eq_false_of_ne_true hm)]
    constructor <;> simp [Heap.valAt, getD_append_len]

/-- The statement of the amended claim C4: commit after begin preserves
the structural content for every value, and when the value started
immutable the resulting value is immutable again (the no-op batch is
closed and the freeze restored). -/
def RoundTripClaim (h : Heap) (v : Nat) : Prop :=
  ((commit (begin h v).1 (begin h v).2).1.valAt
      (commit (begin h v).1 (begin h v).2).2).data = (h.valAt v).data ∧
  ((commit (begin h v).1 (begin h v).2).1.valAt
      (commit (begin h v).1 (begin h v).2).2).fields = (h.valAt v).fields ∧
  (isImmutable h v = true →
    isImmutable (commit (begin h v).1 (begin h v).2).1
      (commit (begin h v).1 (begin h v).2).2 = true)

/-- C4 amended: the claim as stated asks for a frozen context after the
trailing begin, which the code refutes (see the counterexample); what
holds is that commit after begin preserves the structural content and,
when the input value was immutable, returns an immutable value again. -/
theorem roundTrip_amended (h : Heap) (v : Nat) : RoundTripClaim h v := by
  have href := commit_ref (begin h v).1 (begin h v).2
  have hvals := commit_vals (begin h v).1 (begin h v).2
  have hva := valAt_ext hvals (begin h v).2
  refine ⟨?_, ?_, ?_⟩
  · rw [href, hva]
    exact (begin_content h v).1
  · rw [href, hva]
    exact (begin_content h v).2
  · intro him
    have hmf : isMutableContext h (getMutationContext h v) = false := by
      simpa [isImmutable, isMutable] using him
    rw [begin_immutable h v hmf]
    set h2 : Heap :=
      ⟨h.tokens ++ [true], h.ctxs ++ [⟨h.tokens.length, 0⟩],
       h.vals ++ [⟨h.ctxs.length, (h.valAt v).data, (h.valAt v).fields⟩]⟩
      with hh2
    have hmc2 : getMutationContext h2 h.vals.length = h.ctxs.length := by
      rw [hh2]
      simp [getMutationContext, Heap.valAt, getD_append_len]
    have hctx2 : h2.ctxAt h.ctxs.length = ⟨h.tokens.length, 0⟩ := by
      rw [hh2]
      simp [Heap.ctxAt, getD_append_len]
    have hp2 : isPrimaryContext h2 (getMutationContext h2 h.vals.length)
        = true := by
      rw [isPrimaryContext, hmc2, hctx2]
      rfl
    have h02 : (h2.ctxAt (getMutationContext h2 h.vals.length)).scope = 0 := by
      rw [hmc2, hctx2]
    rw [commit_scope_zero h2 h.vals.length hp2 h02]
    rw [isImmutable_eq, tokenOf_setToken]
    have htokOf : tokenOf h2 h.vals.length = h.tokens.length := by
      rw [tokenOf, hmc2, hctx2]
    have htlt : (h2.ctxAt (getMutationContext h2 h.vals.length)).token
        < h2.tokens.length := by
      rw [hmc2, hctx2, hh2]
      simp
    rw [htokOf, show (h2.ctxAt (getMutationContext h2 h.vals.length)).token
        = h.tokens.length by rw [hmc2, hctx2]]
    rw [tokenAt_setToken_self h2
      (show h.tokens.length < h2.tokens.length by rw [hh2]; simp) false]
    rfl

theorem roundTrip_amended_witness :
    isImmutable hFrozenVal 0 = true ∧ RoundTripClaim hFrozenVal 0 :=
  ⟨by decide, roundTrip_amended hFrozenVal 0⟩

/-! Branch evaluation lemmas for modifyAsSubordinate and modifyAsEqual. -/

theorem modifyAsSubordinate_hit (h : Heap) (context : CtxOrVal) (v : Nat)
    (hm : isMutableContext h (resolveCtx h context) = true)
    (hrel : isRelatedContext h (getMutationContext h v)
      (resolveCtx h context) = true)
    (hsub : isSubordinateContext h (getMutationContext h v) = true) :
    modifyAsSubordinate h context v = .ok (h, v) := by
  simp [modifyAsSubordinate, hm, hrel, hsub]

theorem modifyAsSubordinate_clone_pri (h : Heap) (context : CtxOrVal) (v : Nat)
    (hm : isMutableContext h (resolveCtx h context) = true)
    (hmiss : (isRelatedContext h (getMutationContext h v)
        (resolveCtx h context) &&
      isSubordinateContext h (getMutationContext h v)) = false)
    (hp : 0 ≤ (h.ctxAt (resolveCtx h context)).scope) :
    modifyAsSubordinate h context v = .ok
      (⟨h.tokens,
        h.ctxs ++ [⟨(h.ctxAt (resolveCtx h context)).token, -1⟩],
        h.vals ++ [⟨h.ctxs.length, (h.valAt v).data, (h.valAt v).fields⟩]⟩,
       h.vals.length) := by
  have hsel : isMutableContext
      ⟨h.tokens, h.ctxs ++ [⟨(h.ctxAt (resolveCtx h context)).token, -1⟩],
        h.vals⟩ h.ctxs.length = true := by
    simp only [isMutableContext, Heap.ctxAt, Heap.tokenAt, getD_append_len]
    exact hm
  simp [modifyAsSubordinate, hm, hmiss, asSubordinateContext, hp, clone,
    selectContext, hsel, Heap.allocCtx, Heap.allocVal, Heap.valAt]

theorem modifyAsSubordinate_clone_sub (h : Heap) (context : CtxOrVal) (v : Nat)
    (hm : isMutableContext h (resolveCtx h context) = true)
    (hmiss : (isRelatedContext h (getMutationContext h v)
        (resolveCtx h context) &&
      isSubordinateContext h (getMutationContext h v)) = false)
    (hp : ¬0 ≤ (h.ctxAt (resolveCtx h context)).scope) :
    modifyAsSubordinate h context v = .ok
      (⟨h.tokens, h.ctxs,
        h.vals ++ [⟨resolveCtx h context, (h.valAt v).data,
          (h.valAt v).fields⟩]⟩,
       h.vals.length) := by
  simp [modifyAsSubordinate, hm, hmiss, asSubordinateContext, hp, clone,
    selectContext, Heap.allocVal, Heap.valAt]

theorem modifyAsEqual_hit (h : Heap) (context : CtxOrVal) (v : Nat)
    (hm : isMutableContext h (resolveCtx h context) = true)
    (hhit : (isRelatedContext h (getMutationContext h v)
        (resolveCtx h context) &&
      (isSubordinateContext h (resolveCtx h context) ||
        isPrimaryContext h (getMutationContext h v))) = true) :
    modifyAsEqual h context v = .ok (h, v) := by
  simp [modifyAsEqual, hm, hhit]

theorem modifyAsEqual_clone (h : Heap) (context : CtxOrVal) (v : Nat)
    (hm : isMutableContext h (resolveCtx h context) = true)
    (hmiss : (isRelatedContext h (getMutationContext h v)
        (resolveCtx h context) &&
      (isSubordinateContext h (resolveCtx h context) ||
        isPrimaryContext h (getMutationContext h v))) = false) :
    modifyAsEqual h context v = .ok
      (⟨h.tokens, h.ctxs,
        h.vals ++ [⟨resolveCtx h context, (h.valAt v).data,
          (h.valAt v).fields⟩]⟩,
       h.vals.length) := by
  simp [modifyAsEqual, hm, hmiss, clone, selectContext, Heap.allocVal,
    Heap.valAt]

/-- The statement of claim C7 at a heap, an owner argument with a mutable
context, and a child reference: modifyAsSubordinate returns the child
unchanged exactly when the child context is subordinate and shares the
owner token; otherwise it returns a fresh clone whose context is
subordinate (scope -1) and shares the owner token, with the content of
the child. -/
def ModifyAsSubordinateClaim (h : Heap) (context : CtxOrVal) (v : Nat) :
    Prop :=
  ((modifyAsSubordinate h context v = Except.ok (h, v)) ↔
    (isRelatedContext h (getMutationContext h v) (resolveCtx h context) = true ∧
     isSubordinateContext h (getMutationContext h v) = true)) ∧
  (¬(isRelatedContext h (getMutationContext h v) (resolveCtx h context) = true ∧
      isSubordinateContext h (getMutationContext h v) = true) →
    ∃ h2, modifyAsSubordinate h context v = Except.ok (h2, h.vals.length) ∧
      h.vals.length ≠ v ∧
      (h2.ctxAt (getMutationContext h2 h.vals.length)).scope = -1 ∧
      (h2.ctxAt (getMutationContext h2 h.vals.length)).token
        = (h.ctxAt (resolveCtx h context)).token ∧
      (h2.valAt h.vals.length).data = (h.valAt v).data ∧
      (h2.valAt h.vals.length).fields = (h.valAt v).fields)

/-- C7: for a mutable owner, modifyAsSubordinate returns the child
unchanged if and only if the child context is subordinate and shares the
owner token; otherwise it returns a clone of the child whose context is a
subordinate context of scope -1 sharing the owner token. -/
theorem modifyAsSubordinate_correct (h : Heap) (context : CtxOrVal) (v : Nat)
    (hwf : h.WF) (hv : v < h.vals.length)
    (hm : isMutableContext h (resolveCtx h context) = true) :
    ModifyAsSubordinateClaim h context v := by
  unfold ModifyAsSubordinateClaim
  by_cases hcond : isRelatedContext h (getMutationContext h v)
      (resolveCtx h context) = true ∧
      isSubordinateContext h (getMutationContext h v) = true
  · rw [modifyAsSubordinate_hit h context v hm hcond.1 hcond.2]
    exact ⟨⟨fun _ => hcond, fun _ => rfl⟩, fun hc => absurd hcond hc⟩
  · have hmiss : (isRelatedContext h (getMutationContext h v)
        (resolveCtx h context) &&
        isSubordinateContext h (getMutationContext h v)) = false := by
      refine Bool.eq_false_iff.mpr fun hab => hcond ?_
      exact (Bool.and_eq_true _ _).mp hab
    by_cases hp : 0 ≤ (h.ctxAt (resolveCtx h context)).scope
    · rw [modifyAsSubordinate_clone_pri h context v hm hmiss hp]
      constructor
      · constructor
        · intro hok
          have := (Prod.mk.injEq _ _ _ _).mp (Except.ok.inj hok)
          omega
        · intro hc
          exact absurd hc hcond
      · intro _
        refine ⟨_, rfl, by omega, ?_, ?_, ?_, ?_⟩
        · simp [getMutationContext, Heap.valAt, Heap.ctxAt, getD_append_len]
        · simp [getMutationContext, Heap.valAt, Heap.ctxAt, getD_append_len]
        · simp [Heap.valAt, getD_append_len]
        · simp [Heap.valAt, getD_append_len]
    · rw [modifyAsSubordinate_clone_sub h context v hm hmiss hp]
      have hsubP : (h.ctxAt (resolveCtx h context)).scope = -1 := by
        have := scope_ge_neg_one hwf (resolveCtx h context)
        omega
      constructor
      · constructor
        · intro hok
          have := (Prod.mk.injEq _ _ _ _).mp (Except.ok.inj hok)
          omega
        · intro hc
          exact absurd hc hcond
      · intro _
        refine ⟨_, rfl, by omega, ?_, ?_, ?_, ?_⟩
        · simp only [getMutationContext, Heap.valAt, getD_append_len]
          exact hsubP
        · simp only [getMutationContext, Heap.valAt, getD_append_len]
          rfl
        · simp [Heap.valAt, getD_append_len]
        · simp [Heap.valAt, getD_append_len]

theorem modifyAsSubordinate_correct_witness :
    hBatch.WF ∧ 1 < hBatch.vals.length ∧
    isMutableContext hBatch (resolveCtx hBatch (CtxOrVal.mctx 0)) = true ∧
    ModifyAsSubordinateClaim hBatch (CtxOrVal.mctx 0) 1 :=
  ⟨by decide, by decide, by decide,
    modifyAsSubordinate_correct hBatch (CtxOrVal.mctx 0) 1 (by decide)
      (by decide) (by decide)⟩

/-! Claim C3: modifyAsEqual. -/

/-- A concrete heap with one active batch token (cell 1), the frozen
context at index 0, a mutable subordinate context at index 1, and one
value attached to that subordinate context. -/
def hSubBatch : Heap :=
  ⟨[false, true], [⟨0, -1⟩, ⟨1, -1⟩], [⟨1, 5, []⟩]⟩

/-- C3 counterexample: with a mutable subordinate owner context and a
child that shares the owner token but is subordinate (not the batch
owner), modifyAsEqual returns the child itself, whereas the claim demands
a clone in every case where the child is not primary; the claim as stated
is false at this input. -/
theorem modifyAsEqual_claim_false :
    hSubBatch.WF ∧
    isMutableContext hSubBatch (resolveCtx hSubBatch (CtxOrVal.mctx 1))
      = true ∧
    isRelatedContext hSubBatch (getMutationContext hSubBatch 0) 1 = true ∧
    isPrimaryContext hSubBatch (getMutationContext hSubBatch 0) = false ∧
    modifyAsEqual hSubBatch (CtxOrVal.mctx 1) 0 = Except.ok (hSubBatch, 0) := by
  decide

/-- The statement of the amended claim C3: for a mutable owner,
modifyAsEqual returns the child unchanged exactly when the child shares
the owner token and either the child context is primary or the owner
context is subordinate; otherwise it returns a fresh clone of the child
carrying the owner context reference itself. -/
def ModifyAsEqualClaim (h : Heap) (context : CtxOrVal) (v : Nat) : Prop :=
  ((modifyAsEqual h context v = Except.ok (h, v)) ↔
    (isRelatedContext h (getMutationContext h v) (resolveCtx h context) = true ∧
     (isSubordinateContext h (resolveCtx h context) = true ∨
      isPrimaryContext h (getMutationContext h v) = true))) ∧
  (¬(isRelatedContext h (getMutationContext h v) (resolveCtx h context) = true ∧
      (isSubordinateContext h (resolveCtx h context) = true ∨
       isPrimaryContext h (getMutationContext h v) = true)) →
    modifyAsEqual h context v = Except.ok
      (⟨h.tokens, h.ctxs,
        h.vals ++ [⟨resolveCtx h context, (h.valAt v).data,
          (h.valAt v).fields⟩]⟩,
       h.vals.length) ∧
    h.vals.length ≠ v)

/-- C3 amended: the code keeps the child unchanged not only when it is
itself the batch owner sharing the owner token, but also whenever the
owner context is subordinate and the tokens agree (see the
counterexample); in every remaining case it returns a clone of the child
carrying the owner context; a child that is already the batch owner
sharing the token is indeed never forced to subordinate status. -/
theorem modifyAsEqual_amended (h : Heap) (context : CtxOrVal) (v : Nat)
    (hv : v < h.vals.length)
    (hm : isMutableContext h (resolveCtx h context) = true) :
    ModifyAsEqualClaim h context v := by
  unfold ModifyAsEqualClaim
  by_cases hcond : isRelatedContext h (getMutationContext h v)
      (resolveCtx h context) = true ∧
      (isSubordinateContext h (resolveCtx h context) = true ∨
       isPrimaryContext h (getMutationContext h v) = true)
  · have hhit : (isRelatedContext h (getMutationContext h v)
        (resolveCtx h context) &&
        (isSubordinateContext h (resolveCtx h context) ||
          isPrimaryContext h (getMutationContext h v))) = true := by
      rcases hcond with ⟨h1, h2 | h2⟩ <;> simp [h1, h2]
    rw [modifyAsEqual_hit h context v hm hhit]
    exact ⟨⟨fun _ => hcond, fun _ => rfl⟩, fun hc => absurd hcond hc⟩
  · have hmiss : (isRelatedContext h (getMutationContext h v)
        (resolveCtx h context) &&
        (isSubordinateContext h (resolveCtx h context) ||
          isPrimaryContext h (getMutationContext h v))) = false := by
      refine Bool.eq_false_iff.mpr fun hab => hcond ?_
      have hab2 := (Bool.and_eq_true _ _).mp hab
      exact ⟨hab2.1, (Bool.or_eq_true _ _).mp hab2.2⟩
    rw [modifyAsEqual_clone h context v hm hmiss]
    constructor
    · constructor
      · intro hok
        have := (Prod.mk.injEq _ _ _ _).mp (Except.ok.inj hok)
        omega
      · intro hc
        exact absurd hc hcond
    · intro _
      exact ⟨rfl, by omega⟩

theorem modifyAsEqual_amended_witness :
    1 < hBatch.vals.length ∧
    isMutableContext hBatch (resolveCtx hBatch (CtxOrVal.mctx 0)) = true ∧
    ModifyAsEqualClaim hBatch (CtxOrVal.mctx 0) 1 :=
  ⟨by decide, by decide,
    modifyAsEqual_amended hBatch (CtxOrVal.mctx 0) 1 (by decide) (by decide)⟩

/-! Claim C6: modifyProperty. -/

theorem modifyProperty_immutable (h : Heap) (parent name : Nat)
    (him : isImmutable h parent = true) :
    modifyProperty h parent name
      = .error (.invalidOperation
          "Cannot modify properties of an immutable object") := by
  simp [modifyProperty, him]

theorem modifyProperty_related (h : Heap) (parent name : Nat)
    (hmut : isImmutable h parent = false)
    (hrel : isRelatedContext h
      (getMutationContext h ((h.valAt parent).fields.getD name 0))
      (getMutationContext h parent) = true) :
    modifyProperty h parent name
      = .ok (h, (h.valAt parent).fields.getD name 0) := by
  simp only [modifyProperty, hmut, Bool.false_eq_true, if_false, hrel,
    if_true]

theorem modifyProperty_clone_pri (h : Heap) (parent name : Nat)
    (hmut : isImmutable h parent = false)
    (hrel : isRelatedContext h
      (getMutationContext h ((h.valAt parent).fields.getD name 0))
      (getMutationContext h parent) = false)
    (hp : 0 ≤ (h.ctxAt (getMutationContext h parent)).scope)
    (hplt : parent < h.vals.length) :
    modifyProperty h parent name = .ok
      (⟨h.tokens,
        h.ctxs ++ [⟨(h.ctxAt (getMutationContext h parent)).token, -1⟩],
        (h.vals ++ [(⟨h.ctxs.length,
          (h.valAt ((h.valAt parent).fields.getD name 0)).data,
          (h.valAt ((h.valAt parent).fields.getD name 0)).fields⟩ : Val)]).set
          parent
          ⟨(h.valAt parent).mctx, (h.valAt parent).data,
           (h.valAt parent).fields.set name h.vals.length⟩⟩,
       h.vals.length) := by
  simp only [modifyProperty, hmut, Bool.false_eq_true, if_false, hrel]
  simp only [clone, selectContext, getSubordinateContext,
    asSubordinateContext, hp, if_true, Heap.allocCtx, Heap.allocVal,
    Heap.setVal]
  simp only [Heap.valAt, getMutationContext]
  rw [getD_append_lt _ _ _ _ hplt]

theorem modifyProperty_clone_sub (h : Heap) (parent name : Nat)
    (hmut : isImmutable h parent = false)
    (hrel : isRelatedContext h
      (getMutationContext h ((h.valAt parent).fields.getD name 0))
      (getMutationContext h parent) = false)
    (hp : ¬0 ≤ (h.ctxAt (getMutationContext h parent)).scope)
    (hplt : parent < h.vals.length) :
    modifyProperty h parent name = .ok
      (⟨h.tokens, h.ctxs,
        (h.vals ++ [(⟨getMutationContext h parent,
          (h.valAt ((h.valAt parent).fields.getD name 0)).data,
          (h.valAt ((h.valAt parent).fields.getD name 0)).fields⟩ : Val)]).set
          parent
          ⟨(h.valAt parent).mctx, (h.valAt parent).data,
           (h.valAt parent).fields.set name h.vals.length⟩⟩,
       h.vals.length) := by
  simp only [modifyProperty, hmut, Bool.false_eq_true, if_false, hrel]
  simp only [clone, selectContext, getSubordinateContext,
    asSubordinateContext, hp, if_false, Heap.allocVal, Heap.setVal]
  simp only [Heap.valAt, getMutationContext]
  rw [getD_append_lt _ _ _ _ hplt]

/-- The statement of claim C6 at a heap, a parent reference and a child
slot position: on an immutable parent modifyProperty always fails with
the invalid-operation error; on a mutable parent it succeeds with a child
related to the parent (same token), the child being the slot value itself
when already related, and otherwise a fresh clone carrying a subordinate
context of the parent batch, written back into the slot. -/
def ModifyPropertyClaim (h : Heap) (parent name : Nat) : Prop :=
  (isImmutable h parent = true →
    modifyProperty h parent name
      = Except.error (PErr.invalidOperation
          "Cannot modify properties of an immutable object")) ∧
  (isImmutable h parent = false →
    ∃ h2 c, modifyProperty h parent name = Except.ok (h2, c) ∧
      isRelatedContext h2 (getMutationContext h2 c)
        (getMutationContext h2 parent) = true ∧
      (isRelatedContext h
          (getMutationContext h ((h.valAt parent).fields.getD name 0))
          (getMutationContext h parent) = true →
        h2 = h ∧ c = (h.valAt parent).fields.getD name 0) ∧
      (isRelatedContext h
          (getMutationContext h ((h.valAt parent).fields.getD name 0))
          (getMutationContext h parent) = false →
        c = h.vals.length ∧
        (h2.ctxAt (getMutationContext h2 c)).scope = -1 ∧
        (h2.ctxAt (getMutationContext h2 c)).token
          = (h.ctxAt (getMutationContext h parent)).token ∧
        (h2.valAt parent).fields.getD name 0 = c ∧
        (h2.valAt c).data
          = (h.valAt ((h.valAt parent).fields.getD name 0)).data ∧
        (h2.valAt c).fields
          = (h.valAt ((h.valAt parent).fields.getD name 0)).fields))

/-- C6: modifyProperty always fails with an InvalidOperationError on an
immutable parent; on a mutable parent it returns a child related to the
parent (sharing its token), cloning the slot value into a subordinate
context of the parent batch and writing the clone back to the slot when
the slot value was not already related. -/
theorem getD_set_append_out {α : Type} (l : List α) (a x : α) (i : Nat)
    (d : α) (h : i ≠ l.length) :
    ((l ++ [a]).set i x).getD l.length d = a := by
  rw [getD_set_ne _ _ _ _ _ h, getD_append_len]

theorem getD_set_append_self {α : Type} (l : List α) (a x : α) (i : Nat)
    (d : α) (h : i < l.length) :
    ((l ++ [a]).set i x).getD i d = x := by
  refine getD_set_self _ _ _ _ ?_
  simp
  omega

theorem modifyProperty_correct (h : Heap) (parent name : Nat) (hwf : h.WF)
    (hplt : parent < h.vals.length)
    (hn : name < (h.valAt parent).fields.length) :
    ModifyPropertyClaim h parent name := by
  have hmcP := mctx_lt hwf hplt
  have hmcR : (h.vals.getD parent ⟨0, 0, []⟩).mctx < h.ctxs.length := hmcP
  have hnR : name < (h.vals.getD parent ⟨0, 0, []⟩).fields.length := hn
  unfold ModifyPropertyClaim
  refine ⟨modifyProperty_immutable h parent name, ?_⟩
  intro hmut
  by_cases hrel : isRelatedContext h
      (getMutationContext h ((h.valAt parent).fields.getD name 0))
      (getMutationContext h parent) = true
  · refine ⟨h, (h.valAt parent).fields.getD name 0,
      modifyProperty_related h parent name hmut hrel, hrel, fun _ => ⟨rfl, rfl⟩,
      ?_⟩
    intro hc
    rw [hrel] at hc
    exact absurd hc (by simp)
  · have hrelf : isRelatedContext h
        (getMutationContext h ((h.valAt parent).fields.getD name 0))
        (getMutationContext h parent) = false := eq_false_of_ne_true hrel
    have hne : parent ≠ h.vals.length := by omega
    by_cases hp : 0 ≤ (h.ctxAt (getMutationContext h parent)).scope
    · rw [modifyProperty_clone_pri h parent name hmut hrelf hp hplt]
      refine ⟨_, h.vals.length, rfl, ?_, fun hc => absurd hc hrel, ?_⟩
      · simp only [isRelatedContext, getMutationContext, Heap.valAt,
          Heap.ctxAt, getD_set_append_out, getD_set_append_self,
          getD_append_len, getD_append_lt, ne_eq, not_false_eq_true,
          beq_self_eq_true, hne, hplt, hmcR]
      · intro _
        refine ⟨rfl, ?_, ?_, ?_, ?_, ?_⟩ <;>
          simp only [isRelatedContext, getMutationContext, Heap.valAt,
            Heap.ctxAt, getD_set_append_out, getD_set_append_self,
            getD_set_self, getD_append_len, getD_append_lt, ne_eq,
            not_false_eq_true, beq_self_eq_true, hne, hplt, hmcR, hnR]
    · rw [modifyProperty_clone_sub h parent name hmut hrelf hp hplt]
      have hsubP : (h.ctxAt (getMutationContext h parent)).scope = -1 := by
        have := scope_ge_neg_one hwf (getMutationContext h parent)
        omega
      have hsubR : (h.ctxs.getD (h.vals.getD parent ⟨0, 0, []⟩).mctx
          ⟨0, -1⟩).scope = -1 := hsubP
      refine ⟨_, h.vals.length, rfl, ?_, fun hc => absurd hc hrel, ?_⟩
      · simp only [isRelatedContext, getMutationContext, Heap.valAt,
          Heap.ctxAt, getD_set_append_out, getD_set_append_self,
          getD_append_len, getD_append_lt, ne_eq, not_false_eq_true,
          beq_self_eq_true, hne, hplt, hmcR]
      · intro _
        refine ⟨rfl, ?_, ?_, ?_, ?_, ?_⟩ <;>
          simp only [isRelatedContext, getMutationContext, Heap.valAt,
            Heap.ctxAt, getD_set_append_out, getD_set_append_self,
            getD_set_self, getD_append_len, getD_append_lt, ne_eq,
            not_false_eq_true, beq_self_eq_true, hne, hplt, hmcR, hnR,
            hsubR]

/-! Claim C8: failure conditions. -/

theorem modifyAsSubordinate_err (h : Heap) (context : CtxOrVal) (v : Nat)
    (hm : isMutableContext h (resolveCtx h context) = false) :
    modifyAsSubordinate h context v = .error (.argumentError "context"
      "The first argument must refer to a mutable object or mutation context")
    := by
  simp [modifyAsSubordinate, hm]

theorem modifyAsEqual_err (h : Heap) (context : CtxOrVal) (v : Nat)
    (hm : isMutableContext h (resolveCtx h context) = false) :
    modifyAsEqual h context v = .error (.argumentError "context"
      "The first argument must refer to a mutable object or mutation context")
    := by
  simp [modifyAsEqual, hm]

theorem modifyAsSubordinate_isOk (h : Heap) (context : CtxOrVal) (v : Nat)
    (hm : isMutableContext h (resolveCtx h context) = true) :
    ∃ r, modifyAsSubordinate h context v = .ok r := by
  by_cases hc : (isRelatedContext h (getMutationContext h v)
      (resolveCtx h context) &&
      isSubordinateContext h (getMutationContext h v)) = true
  · exact ⟨(h, v), by simp [modifyAsSubordinate, hm, hc]⟩
  · have hcf := eq_false_of_ne_true hc
    by_cases hp : 0 ≤ (h.ctxAt (resolveCtx h context)).scope
    · exact ⟨_, modifyAsSubordinate_clone_pri h context v hm hcf hp⟩
    · exact ⟨_, modifyAsSubordinate_clone_sub h context v hm hcf hp⟩

theorem modifyAsEqual_isOk (h : Heap) (context : CtxOrVal) (v : Nat)
    (hm : isMutableContext h (resolveCtx h context) = true) :
    ∃ r, modifyAsEqual h context v = .ok r := by
  by_cases hc : (isRelatedContext h (getMutationContext h v)
      (resolveCtx h context) &&
      (isSubordinateContext h (resolveCtx h context) ||
        isPrimaryContext h (getMutationContext h v))) = true
  · exact ⟨(h, v), modifyAsEqual_hit h context v hm hc⟩
  · exact ⟨_, modifyAsEqual_clone h context v hm (eq_false_of_ne_true hc)⟩

theorem modifyProperty_isOk (h : Heap) (parent name : Nat)
    (hmut : isImmutable h parent = false) :
    ∃ r, modifyProperty h parent name = .ok r := by
  simp only [modifyProperty, hmut, Bool.false_eq_true, if_false]
  split
  · exact ⟨_, rfl⟩
  · exact ⟨_, rfl⟩

/-- The statement of claim C8 at a heap, an owner argument, a child
reference, a parent reference and a slot position: modifyAsSubordinate
and modifyAsEqual produce an (argument) error exactly when the resolved
owner context is not mutable, and that error is the ArgumentError;
modifyProperty produces an error exactly when the parent is immutable,
and that error is the InvalidOperationError.  Every other operation of
the module is a total function into a non-error type (begin, commit,
clone, update, selectContext, asSubordinateContext and the predicates
return plain heaps, references or booleans), so no other operation can
fail. -/
def FailureClaim (h : Heap) (context : CtxOrVal) (v parent name : Nat) :
    Prop :=
  ((∃ e, modifyAsSubordinate h context v = Except.error e) ↔
    isMutableContext h (resolveCtx h context) = false) ∧
  (isMutableContext h (resolveCtx h context) = false →
    modifyAsSubordinate h context v
      = Except.error (PErr.argumentError "context"
        "The first argument must refer to a mutable object or mutation context")) ∧
  ((∃ e, modifyAsEqual h context v = Except.error e) ↔
    isMutableContext h (resolveCtx h context) = false) ∧
  (isMutableContext h (resolveCtx h context) = false →
    modifyAsEqual h context v
      = Except.error (PErr.argumentError "context"
        "The first argument must refer to a mutable object or mutation context")) ∧
  ((∃ e, modifyProperty h parent name = Except.error e) ↔
    isImmutable h parent = true) ∧
  (isImmutable h parent = true →
    modifyProperty h parent name
      = Except.error (PErr.invalidOperation
        "Cannot modify properties of an immutable object"))

/-- C8: modifyAsSubordinate and modifyAsEqual raise an ArgumentError if
and only if the supplied owner context is not currently mutable, and
modifyProperty raises an InvalidOperationError if and only if the parent
is immutable; these are the only fallible operations of the module, the
rest being total functions by construction. -/
theorem failure_conditions (h : Heap) (context : CtxOrVal)
    (v parent name : Nat) : FailureClaim h context v parent name := by
  unfold FailureClaim
  refine ⟨⟨?_, ?_⟩, fun hm => modifyAsSubordinate_err h context v hm,
    ⟨?_, ?_⟩, fun hm => modifyAsEqual_err h context v hm,
    ⟨?_, ?_⟩, fun hm => modifyProperty_immutable h parent name hm⟩
  · rintro ⟨e, he⟩
    by_cases hm : isMutableContext h (resolveCtx h context) = true
    · obtain ⟨r, hr⟩ := modifyAsSubordinate_isOk h context v hm
      rw [hr] at he
      exact Except.noConfusion he
    · exact eq_false_of_ne_true hm
  · intro hm
    exact ⟨_, modifyAsSubordinate_err h context v hm⟩
  · rintro ⟨e, he⟩
    by_cases hm : isMutableContext h (resolveCtx h context) = true
    · obtain ⟨r, hr⟩ := modifyAsEqual_isOk h context v hm
      rw [hr] at he
      exact Except.noConfusion he
    · exact eq_false_of_ne_true hm
  · intro hm
    exact ⟨_, modifyAsEqual_err h context v hm⟩
  · rintro ⟨e, he⟩
    by_cases hmut : isImmutable h parent = true
    · exact hmut
    · obtain ⟨r, hr⟩ := modifyProperty_isOk h parent name
        (eq_false_of_ne_true hmut)
      rw [hr] at he
      exact Except.noConfusion he
  · intro hm
    exact ⟨_, modifyProperty_immutable h parent name hm⟩

theorem failure_conditions_witness :
    FailureClaim hFrozenVal (CtxOrVal.mctx 0) 0 0 0 :=
  failure_conditions hFrozenVal (CtxOrVal.mctx 0) 0 0 0

/-! Claim C5: update. -/

theorem ctxAt_ext {h1 h2 : Heap} (e : h1.ctxs = h2.ctxs) (c : Nat) :
    h1.ctxAt c = h2.ctxAt c := by
  simp [Heap.ctxAt, e]

theorem valAt_setToken (h : Heap) (t : Nat) (b : Bool) (v : Nat) :
    (h.setToken t b).valAt v = h.valAt v := rfl

theorem isMutable_begin (h : Heap) (v : Nat) :
    isMutable (begin h v).1 (begin h v).2 = true := by
  by_cases hm : isMutableContext h (getMutationContext h v) = true
  · by_cases hs : isSubordinateContext h (getMutationContext h v) = true
    · rw [begin_mutable_sub h v hm hs]
      exact hm
    · have hsub := eq_false_of_ne_true hs
      have hmc : getMutationContext h v < h.ctxs.length := by
        by_contra hge
        have hd : h.ctxAt (getMutationContext h v) = ⟨0, -1⟩ :=
          getD_out_of_range _ _ _ (Nat.le_of_not_lt hge)
        rw [isSubordinateContext, hd] at hsub
        simp at hsub
      rw [begin_mutable_pri h v hm hsub]
      simp only [isMutable, isMutableContext, incScope]
      rw [show getMutationContext
          (h.setCtx (getMutationContext h v)
            ⟨(h.ctxAt (getMutationContext h v)).token,
             (h.ctxAt (getMutationContext h v)).scope + 1⟩) v
          = getMutationContext h v from rfl]
      rw [ctxAt_setCtx_self h hmc]
      exact hm
  · rw [begin_immutable h v (eq_false_of_ne_true hm)]
    simp [isMutable, isMutableContext, getMutationContext, Heap.valAt,
      Heap.ctxAt, Heap.tokenAt, getD_append_len]

/-- The statement of claim C5 at a mutation procedure, a heap and a value
reference: the procedure is invoked on a value that is mutable at the
time of the call, the value returned by update is the one the procedure
received, and when the input value started immutable the returned value
is immutable again while the input value is left unmodified (still
immutable, entry untouched). -/
def UpdateClaim (mutate : Heap → Nat → Heap) (h : Heap) (v : Nat) : Prop :=
  isMutable (begin h v).1 (begin h v).2 = true ∧
  (update mutate h v).2 = (begin h v).2 ∧
  (isImmutable h v = true →
    isImmutable (update mutate h v).1 (update mutate h v).2 = true ∧
    (update mutate h v).1.valAt v = h.valAt v ∧
    isImmutable (update mutate h v).1 v = true)

/-- C5: update invokes the mutation procedure on a value that is mutable
at the time of the call (the procedure never observes an immutable
argument), and when the input value started immutable the value returned
by update is immutable again and the input value itself is left
unmodified.  The hypotheses on the procedure state that it is an in-place
mutation of the value it receives: it leaves the token store, the context
store, the entry of the original value, and the context reference of its
argument untouched. -/
theorem update_correct (mutate : Heap → Nat → Heap) (h : Heap) (v : Nat)
    (hwf : h.WF) (hv : v < h.vals.length)
    (htk : (mutate (begin h v).1 (begin h v).2).tokens = (begin h v).1.tokens)
    (hcx : (mutate (begin h v).1 (begin h v).2).ctxs = (begin h v).1.ctxs)
    (hvv : (mutate (begin h v).1 (begin h v).2).valAt v
      = (begin h v).1.valAt v)
    (hmx : ((mutate (begin h v).1 (begin h v).2).valAt (begin h v).2).mctx
      = ((begin h v).1.valAt (begin h v).2).mctx) :
    UpdateClaim mutate h v := by
  unfold UpdateClaim
  refine ⟨isMutable_begin h v, commit_ref _ _, ?_⟩
  intro him
  have hmc := mctx_lt hwf hv
  have htok := ctx_token_lt hwf hmc
  have hmf : isMutableContext h (getMutationContext h v) = false := by
    simpa [isImmutable, isMutable] using him
  have hp1 := congrArg Prod.fst (begin_immutable h v hmf)
  have hp2 : (begin h v).2 = h.vals.length :=
    congrArg Prod.snd (begin_immutable h v hmf)
  have hval1 : (begin h v).1.valAt v = h.valAt v := by
    rw [hp1]
    exact getD_append_lt _ _ _ _ hv
  have hctx1 : (begin h v).1.ctxAt ((h.valAt v).mctx)
      = h.ctxAt ((h.valAt v).mctx) := by
    rw [hp1]
    exact getD_append_lt _ _ _ _ hmc
  have hctxlen : (begin h v).1.ctxAt h.ctxs.length
      = ⟨h.tokens.length, 0⟩ := by
    rw [hp1]
    exact getD_append_len _ _ _
  have htoks1 : (begin h v).1.tokens = h.tokens ++ [true] := by
    rw [hp1]
  have hmctx1 : ((begin h v).1.valAt (begin h v).2).mctx = h.ctxs.length := by
    rw [hp1, hp2]
    simp [Heap.valAt, getD_append_len]
  have e1 : getMutationContext (mutate (begin h v).1 (begin h v).2)
      (begin h v).2 = h.ctxs.length := by
    show ((mutate (begin h v).1 (begin h v).2).valAt (begin h v).2).mctx = _
    rw [hmx]
    exact hmctx1
  have e2 : (mutate (begin h v).1 (begin h v).2).ctxAt h.ctxs.length
      = ⟨h.tokens.length, 0⟩ := by
    rw [ctxAt_ext hcx]
    exact hctxlen
  have hpz : isPrimaryContext (mutate (begin h v).1 (begin h v).2)
      (getMutationContext (mutate (begin h v).1 (begin h v).2)
        (begin h v).2) = true := by
    show decide (0 ≤ ((mutate (begin h v).1 (begin h v).2).ctxAt
      (getMutationContext (mutate (begin h v).1 (begin h v).2)
        (begin h v).2)).scope) = true
    rw [e1, e2]
    rfl
  have h02 : ((mutate (begin h v).1 (begin h v).2).ctxAt
      (getMutationContext (mutate (begin h v).1 (begin h v).2)
        (begin h v).2)).scope = 0 := by
    rw [e1, e2]
  have hcz := commit_scope_zero (mutate (begin h v).1 (begin h v).2)
    (begin h v).2 hpz h02
  have etok : ((mutate (begin h v).1 (begin h v).2).ctxAt
      (getMutationContext (mutate (begin h v).1 (begin h v).2)
        (begin h v).2)).token = h.tokens.length := by
    rw [e1, e2]
  have hMlen : (mutate (begin h v).1 (begin h v).2).tokens.length
      = h.tokens.length + 1 := by
    rw [htk, htoks1]
    simp
  refine ⟨?_, ?_, ?_⟩
  · show isImmutable (commit (mutate (begin h v).1 (begin h v).2)
      (begin h v).2).1 (commit (mutate (begin h v).1 (begin h v).2)
      (begin h v).2).2 = true
    rw [hcz]
    rw [isImmutable_eq, tokenOf_setToken]
    have etok2 : tokenOf (mutate (begin h v).1 (begin h v).2) (begin h v).2
        = h.tokens.length := etok
    rw [etok2, etok]
    rw [tokenAt_setToken_self (mutate (begin h v).1 (begin h v).2)
      (by omega) false]
    rfl
  · show (commit (mutate (begin h v).1 (begin h v).2)
      (begin h v).2).1.valAt v = h.valAt v
    rw [hcz, valAt_setToken, hvv]
    exact hval1
  · show isImmutable (commit (mutate (begin h v).1 (begin h v).2)
      (begin h v).2).1 v = true
    rw [hcz, isImmutable_eq, tokenOf_setToken]
    have e3 : tokenOf (mutate (begin h v).1 (begin h v).2) v
        = tokenOf h v := by
      show ((mutate (begin h v).1 (begin h v).2).ctxAt
        ((mutate (begin h v).1 (begin h v).2).valAt v).mctx).token
        = (h.ctxAt (h.valAt v).mctx).token
      rw [hvv, hval1, ctxAt_ext hcx, hctx1]
    rw [e3, etok]
    have htokT : tokenOf h v < h.tokens.length := htok
    have hne2 : h.tokens.length ≠ tokenOf h v := by omega
    show (!((mutate (begin h v).1 (begin h v).2).tokens.set h.tokens.length
      false).getD (tokenOf h v) false) = true
    rw [getD_set_ne _ _ _ _ _ hne2, htk, htoks1,
      getD_append_lt _ _ _ _ htokT]
    exact him

/-- A concrete in-place mutation procedure for the witness: overwrite the
data of the value it receives with 42, preserving context and fields. -/
def writeData (h : Heap) (w : Nat) : Heap :=
  h.setVal w ⟨(h.valAt w).mctx, 42, (h.valAt w).fields⟩

theorem update_correct_witness :
    hFrozenVal.WF ∧ 0 < hFrozenVal.vals.length ∧
    (writeData (begin hFrozenVal 0).1 (begin hFrozenVal 0).2).tokens
      = (begin hFrozenVal 0).1.tokens ∧
    (writeData (begin hFrozenVal 0).1 (begin hFrozenVal 0).2).ctxs
      = (begin hFrozenVal 0).1.ctxs ∧
    (writeData (begin hFrozenVal 0).1 (begin hFrozenVal 0).2).valAt 0
      = (begin hFrozenVal 0).1.valAt 0 ∧
    ((writeData (begin hFrozenVal 0).1 (begin hFrozenVal 0).2).valAt
        (begin hFrozenVal 0).2).mctx
      = ((begin hFrozenVal 0).1.valAt (begin hFrozenVal 0).2).mctx ∧
    UpdateClaim writeData hFrozenVal 0 :=
  ⟨by decide, by decide, by decide, by decide, by decide, by decide,
    update_correct writeData hFrozenVal 0 (by decide) (by decide)
      (by decide) (by decide) (by decide) (by decide)⟩

/-- A concrete heap for modifyProperty: a mutable parent owning an active
batch, whose single child slot holds an immutable value with an unrelated
(frozen) context. -/
def hParentChild : Heap :=
  ⟨[false, true], [⟨0, -1⟩, ⟨1, 0⟩], [⟨0, 3, []⟩, ⟨1, 9, [0]⟩]⟩

theorem modifyProperty_correct_witness :
    hParentChild.WF ∧ 1 < hParentChild.vals.length ∧
    0 < (hParentChild.valAt 1).fields.length ∧
    ModifyPropertyClaim hParentChild 1 0 :=
  ⟨by decide, by decide, by decide,
    modifyProperty_correct hParentChild 1 0 (by decide) (by decide)
      (by decide)⟩

end Structural

namespace RBT

/-- The statement of claim C10: the Node constructor defaults absent
children to the node itself, so the process-wide sentinel None has itself
as both children and count 0; make returns a tree that is not editable,
with root None and size 0; makeNode returns a node of count 1 with both
children None and the editability of the tree. -/
def SentinelClaim : Prop :=
  (∀ h e k val r c,
    ((newNode h e k val r c none none).1.nodeAt
        (newNode h e k val r c none none).2).left
      = (newNode h e k val r c none none).2 ∧
    ((newNode h e k val r c none none).1.nodeAt
        (newNode h e k val r c none none).2).right
      = (newNode h e k val r c none none).2) ∧
  ((rbHeap0.nodeAt noneId).left = noneId ∧
   (rbHeap0.nodeAt noneId).right = noneId ∧
   (rbHeap0.nodeAt noneId).count = 0) ∧
  (∀ o, (make o).editable = false ∧ (make o).root = noneId ∧
    (make o).size = 0) ∧
  (∀ h tree r k val,
    ((makeNode h tree r k val).1.nodeAt (makeNode h tree r k val).2).count
      = 1 ∧
    ((makeNode h tree r k val).1.nodeAt (makeNode h tree r k val).2).left
      = noneId ∧
    ((makeNode h tree r k val).1.nodeAt (makeNode h tree r k val).2).right
      = noneId ∧
    ((makeNode h tree r k val).1.nodeAt (makeNode h tree r k val).2).editable
      = tree.editable)

/-- C10: the Node constructor defaults absent children to the node
itself; the sentinel None is its own left and right child with count 0;
make returns a non-editable tree with root None and size 0; makeNode
returns a count-1 node with both children None and the editability of the
tree. -/
theorem sentinel_invariant : SentinelClaim := by
  unfold SentinelClaim
  refine ⟨?_, ⟨rfl, rfl, rfl⟩, fun o => ⟨rfl, rfl, rfl⟩, ?_⟩
  · intro h e k val r c
    constructor <;> simp [newNode, RBHeap.nodeAt, Structural.getD_append_len]
  · intro h tree r k val
    refine ⟨?_, ?_, ?_, ?_⟩ <;>
      simp [makeNode, newNode, RBHeap.nodeAt, Structural.getD_append_len]

end RBT
